import Mathlib

/-!
Verification of the Capability Assessment Engine of `sathyab86/app.py`
(`src/streamlit_app.py` and `src/quality_manager.py`).

The development shallowly embeds the engine:
* the `WebScraper` lexicon and its text analysis (`scrape_website`,
  `_calculate_suggested_scores`) from `src/streamlit_app.py`;
* the `QualityCapabilityManager` catalog (`add_capability`,
  `remove_capability`, `edit_capability`, seeding) shared by both files.

Python strings become `String` / `List Char`; Python dicts (which preserve
insertion order and have unique keys) become association lists with
replace-in-place insertion; Python's unbounded non-negative counts become
`Nat` (Python `//` on non-negative ints is `Nat` division).
-/

namespace App

/-! ## Lexicon (`WebScraper.__init__`, src/streamlit_app.py lines 16-34) -/

def certifications : List String :=
  ["ISO 9001", "ISO 13485", "AS9100", "IATF 16949", "API Q1",
   "ISO 17025", "GMP", "HACCP", "Six Sigma"]

def quality_terms : List String :=
  ["quality management", "quality control", "quality assurance",
   "QMS", "quality policy", "continuous improvement"]

def process_terms : List String :=
  ["SPC", "statistical process control", "FMEA", "process control",
   "quality metrics", "process validation"]

def tools_terms : List String :=
  ["quality tools", "measurement system", "calibration",
   "inspection", "testing equipment"]

/-- The fixed substrings classifying a hyperlink as quality-related
(src/streamlit_app.py line 79). -/
def quality_page_terms : List String := ["quality", "certification", "compliance"]

/-! ## Text primitives -/

/-- Python `str.lower()` on the character list of a string (ASCII model). -/
def lowerStr (s : List Char) : List Char := s.map Char.toLower

/-- Python `needle in hay` substring containment on character lists
(`"" in s` is true, matching Python). -/
def subStr (needle : List Char) : List Char → Bool
  | [] => needle.isPrefixOf []
  | c :: t => needle.isPrefixOf (c :: t) || subStr needle t

/-- A regex word character for `\b`: `[a-zA-Z0-9_]` (ASCII model of `\w`). -/
def pyIsWordChar (c : Char) : Bool := c.isAlphanum || c == '_'

/-- Whether position `j` of `text` holds a word character
(out-of-range positions count as non-word). -/
def wordAt (text : List Char) (j : Nat) : Bool :=
  pyIsWordChar (text.getD j ' ')

/-- Whether the position just before `i` holds a word character. -/
def leftWordAt (text : List Char) (i : Nat) : Bool :=
  match i with
  | 0 => false
  | Nat.succ k => wordAt text k

/-- The regex boundary assertion `\b` holds at position `i` of `text`:
exactly one of the adjacent positions holds a word character. -/
def boundary (text : List Char) (i : Nat) : Bool :=
  leftWordAt text i != wordAt text i

/-- The regex `\b<term>\b` (with `term` a literal, as built by
`re.escape`) matches `text` at position `i`. -/
def matchAt (text term : List Char) (i : Nat) : Bool :=
  decide (i + term.length ≤ text.length) &&
  (List.range term.length).all (fun m => text.getD (i + m) ' ' == term.getD m ' ') &&
  boundary text i && boundary text (i + term.length)

/-- The scan of `re.findall(r'\b' + re.escape(term) + r'\b', text)` from
position `i`, written with structural recursion on a step budget (`fuel`)
so that concrete inputs evaluate inside the kernel; `countFrom` below
supplies a sufficient budget, and `countFrom_step` recovers the natural
recurrence. -/
def countFromAux (text term : List Char) : Nat → Nat → Nat
  | 0, _ => 0
  | Nat.succ fuel, i =>
    if i < text.length then
      if matchAt text term i then
        1 + countFromAux text term fuel (i + max term.length 1)
      else
        countFromAux text term fuel (i + 1)
    else 0

/-- The number of matches `re.findall(r'\b' + re.escape(term) + r'\b', text)`
returns from position `i` on: a left-to-right scan that, after a match,
resumes past the matched characters (non-overlapping matches). -/
def countFrom (text term : List Char) (i : Nat) : Nat :=
  countFromAux text term (text.length + 1) i

/-- Helper for `occFrom`, structurally recursive on a step budget. -/
def occFromAux (text term : List Char) : Nat → Nat → Nat
  | 0, _ => 0
  | Nat.succ fuel, i =>
    if i < text.length then
      (if matchAt text term i then 1 else 0) + occFromAux text term fuel (i + 1)
    else 0

/-- The number of positions `j ≥ i` of `text` at which a whole-word
occurrence of `term` starts (every occurrence, with no non-overlap
proviso). -/
def occFrom (text term : List Char) (i : Nat) : Nat :=
  occFromAux text term (text.length + 1) i

/-- The specification's "number of whole-word/whole-phrase occurrences" of
`term` in `text`: the number of positions at which `\b<term>\b` matches
(a non-empty term can only match at a position below `text.length`). -/
def occurrenceCount (text term : List Char) : Nat :=
  (List.range text.length).countP (fun i => matchAt text term i)

/-- A term is non-empty, starts with a word character, and no position
following an internal non-word character repeats the first character.
Every lexicon term (lower-cased) satisfies this; it rules out overlapping
whole-word occurrences, so the scan of `countFrom` misses none. -/
def okTerm (term : List Char) : Bool :=
  !term.isEmpty &&
  pyIsWordChar (term.getD 0 ' ') &&
  (List.range term.length).all (fun k =>
    k == 0 || pyIsWordChar (term.getD (k - 1) ' ') || term.getD k ' ' != term.getD 0 ' ')

/-! ## Scrape results (`WebScraper.scrape_website`, src/streamlit_app.py lines 36-97) -/

/-- The `results` dict built by `scrape_website`.  The success branch has no
`error` key (`error = none`); the `except` branch carries the exception
message (`error = some msg`). -/
structure ScrapeResults where
  certifications_found : List String
  quality_mentions : Nat
  process_mentions : Nat
  tools_mentions : Nat
  quality_pages : List String
  suggested_scores : List (String × Nat)
  error : Option String
deriving DecidableEq

/-- One category's mention count: the sum over the category's terms of the
`re.findall(r'\b' + re.escape(term.lower()) + r'\b', text_content)` match
counts (src/streamlit_app.py lines 64-74). -/
def categoryMentions (terms : List String) (text_content : List Char) : Nat :=
  (terms.map (fun term => countFrom text_content (lowerStr term.data) 0)).sum

/-- `WebScraper._calculate_suggested_scores` (src/streamlit_app.py
lines 99-127), reading the same fields of `results` the Python reads. -/
def calculate_suggested_scores (results : ScrapeResults) : List (String × Nat) :=
  let qms_score := min
    (results.certifications_found.length * 2 + results.quality_mentions / 5) 10
  let process_score := min
    (results.process_mentions / 3 + results.quality_pages.length / 2) 10
  let tools_score := min
    (results.tools_mentions / 2 + results.certifications_found.length) 10
  [("QMS", max 1 qms_score),
   ("ProcessControl", max 1 process_score),
   ("SPC", max 1 tools_score)]

/-- The success branch of `scrape_website` (src/streamlit_app.py
lines 44-86), given the page text returned by `soup.get_text()`, the
`href` values of the page's anchors, and `urljoin url` as the abstract
function `join` (URL resolution is I/O-free string plumbing whose result
is only collected into `quality_pages`). -/
def scrapeBody (raw_text : String) (hrefs : List String)
    (join : String → String) : ScrapeResults :=
  let text_content := lowerStr raw_text.data
  let certs := certifications.filter (fun cert => subStr (lowerStr cert.data) text_content)
  let qpages := (hrefs.filter (fun href =>
    quality_page_terms.any (fun term => subStr term.data (lowerStr href.data)))).map join
  let pre : ScrapeResults :=
    { certifications_found := certs
      quality_mentions := categoryMentions quality_terms text_content
      process_mentions := categoryMentions process_terms text_content
      tools_mentions := categoryMentions tools_terms text_content
      quality_pages := qpages
      suggested_scores := []
      error := none }
  { pre with suggested_scores := calculate_suggested_scores pre }

/-- `WebScraper.scrape_website`: fetching and parsing the page is the
adapter's job, modelled by `fetch` — `.ok (text, hrefs)` when extraction
succeeds, `.error msg` when any step of the `try` block throws.  The
`except` branch (src/streamlit_app.py lines 88-97) returns the designated
no-signal dict. -/
def scrape_website (fetch : Except String (String × List String))
    (join : String → String) : ScrapeResults :=
  match fetch with
  | Except.ok (raw_text, hrefs) => scrapeBody raw_text hrefs join
  | Except.error msg =>
    { certifications_found := []
      quality_mentions := 0
      process_mentions := 0
      tools_mentions := 0
      quality_pages := []
      suggested_scores := []
      error := some msg }

/-- The specification's clamp: `clamp(lo, hi, v) = max(lo, min(hi, v))`. -/
def clamp (lo hi v : Nat) : Nat := max lo (min hi v)

/-! ## Capability catalog (`QualityCapabilityManager`, src/streamlit_app.py
lines 193-267 and src/quality_manager.py lines 11-94) -/

/-- The `QualityCapability` record; `scoring_criteria` is a Python dict
from level string to description, modelled as an ordered association list. -/
structure QualityCapability where
  name : String
  category : String
  scoring_criteria : List (String × String)
deriving DecidableEq

/-- `self.capabilities`: a Python dict from id to capability — insertion
ordered, unique keys. -/
abbrev Catalog := List (String × QualityCapability)

/-- Python dict membership `id in self.capabilities`. -/
def hasKey (m : Catalog) (id : String) : Bool :=
  m.any (fun p => p.1 == id)

/-- Python dict read `self.capabilities.get(id)`: the first (only) entry. -/
def lookup (m : Catalog) (id : String) : Option QualityCapability :=
  (m.find? (fun p => p.1 == id)).map Prod.snd

/-- Python dict assignment `d[k] = v`: replaces in place when the key is
present (dicts keep the original position), appends otherwise. -/
def dictInsert (m : Catalog) (id : String) (v : QualityCapability) : Catalog :=
  if hasKey m id then
    m.map (fun p => if p.1 == id then (p.1, v) else p)
  else
    m ++ [(id, v)]

/-- `QualityCapabilityManager.add_capability`
(src/streamlit_app.py lines 246-247, src/quality_manager.py lines 68-70):
`self.capabilities[id] = QualityCapability(name, category, scoring_criteria)`. -/
def add_capability (m : Catalog) (id name category : String)
    (scoring_criteria : List (String × String)) : Catalog :=
  dictInsert m id ⟨name, category, scoring_criteria⟩

/-- `QualityCapabilityManager.remove_capability`
(src/streamlit_app.py lines 249-251, src/quality_manager.py lines 72-75):
`if id in self.capabilities: del self.capabilities[id]`. -/
def remove_capability (m : Catalog) (id : String) : Catalog :=
  if hasKey m id then m.filter (fun p => !(p.1 == id)) else m

/-- Python truthiness of an optional string argument defaulting to `None`:
falsy when absent (`None`) or empty (`""`). -/
def truthyStr : Option String → Bool
  | none => false
  | some s => !(s == "")

/-- Python truthiness of an optional dict argument defaulting to `None`:
falsy when absent (`None`) or empty (`{}`). -/
def truthyDict : Option (List (String × String)) → Bool
  | none => false
  | some d => !d.isEmpty

/-- The in-place field updates `edit_capability` performs on the selected
capability: each field is overwritten only when the argument is truthy. -/
def editFields (cap : QualityCapability) (name category : Option String)
    (scoring_criteria : Option (List (String × String))) : QualityCapability :=
  { name := if truthyStr name then name.getD cap.name else cap.name
    category := if truthyStr category then category.getD cap.category else cap.category
    scoring_criteria :=
      if truthyDict scoring_criteria then scoring_criteria.getD cap.scoring_criteria
      else cap.scoring_criteria }

/-- `QualityCapabilityManager.edit_capability`
(src/streamlit_app.py lines 253-261, src/quality_manager.py lines 77-86):
`if id in self.capabilities:` then truthiness-guarded field assignments
(`if name: cap.name = name` and so on); no-op otherwise. -/
def edit_capability (m : Catalog) (id : String) (name category : Option String)
    (scoring_criteria : Option (List (String × String))) : Catalog :=
  if hasKey m id then
    m.map (fun p =>
      if p.1 == id then (p.1, editFields p.2 name category scoring_criteria) else p)
  else m

/-- `QualityCapabilityManager.get_capabilities_by_category`. -/
def get_capabilities_by_category (m : Catalog) (category : String) : Catalog :=
  m.filter (fun p => p.2.category == category)

/-- `QualityCapabilityManager.get_all_categories`:
`list(set(...))` — the distinct categories; Python's set iteration order is
unspecified, modelled as first-occurrence order, which the claims never
depend on. -/
def get_all_categories (m : Catalog) : List String :=
  (m.map (fun p => p.2.category)).dedup

/-- The seeded catalog of `src/streamlit_app.py`
(`_initialize_base_capabilities`, lines 205-244): three `add_capability`
calls on the fresh empty dict. -/
def initCatalogStreamlit : Catalog :=
  add_capability
    (add_capability
      (add_capability []
        "QMS" "Quality Management System" "System"
        [("1", "No formal QMS"),
         ("3", "Basic quality procedures"),
         ("5", "ISO 9001 implementation in progress"),
         ("7", "ISO 9001 certified"),
         ("10", "Advanced integrated QMS with multiple certifications")])
      "SPC" "Statistical Process Control" "Tools"
      [("1", "No SPC implementation"),
       ("3", "Basic data collection"),
       ("5", "Regular SPC charts and analysis"),
       ("7", "Advanced SPC with process capability studies"),
       ("10", "Real-time SPC with automated controls")])
    "ProcessControl" "Process Control" "Process"
    [("1", "No process control"),
     ("3", "Basic process documentation"),
     ("5", "Standard work instructions"),
     ("7", "Process control plans"),
     ("10", "Advanced process control system")]

/-- The seeded catalog of `src/quality_manager.py`
(`_initialize_base_capabilities`, lines 22-66): `add_capability` applied to
each entry of `base_capabilities` in the dict's insertion order. -/
def initCatalogQualityManager : Catalog :=
  add_capability
    (add_capability
      (add_capability []
        "QMS" "Quality Management System" "System"
        [("1", "No formal QMS"),
         ("3", "Basic quality procedures"),
         ("5", "ISO 9001 implementation in progress"),
         ("7", "ISO 9001 certified"),
         ("10", "Advanced integrated QMS with multiple certifications")])
      "SPC" "Statistical Process Control" "Tools"
      [("1", "No SPC implementation"),
       ("3", "Basic data collection"),
       ("5", "Regular SPC charts and analysis"),
       ("7", "Advanced SPC with process capability studies"),
       ("10", "Real-time SPC with automated controls")])
    "APQP" "Advanced Product Quality Planning" "Process"
    [("1", "No formal product quality planning"),
     ("3", "Basic planning procedures"),
     ("5", "APQP framework implemented"),
     ("7", "Full APQP with cross-functional teams"),
     ("10", "Advanced APQP with digital integration")]

/-! ## Lemmas about the scanning primitives -/

theorem countFromAux_congr (text term : List Char) :
    ∀ f g i, text.length - i < f → text.length - i < g →
      countFromAux text term f i = countFromAux text term g i := by
  intro f
  induction f with
  | zero => intro g i hf _; omega
  | succ f ih =>
    intro g i hf hg
    match g, hg with
    | Nat.succ g, hg =>
      show countFromAux text term (Nat.succ f) i = countFromAux text term (Nat.succ g) i
      simp only [countFromAux]
      by_cases h : i < text.length
      · rw [if_pos h, if_pos h]
        have hm : 1 ≤ max term.length 1 := Nat.le_max_right _ _
        by_cases hmt : matchAt text term i = true
        · rw [if_pos hmt, if_pos hmt, ih g (i + max term.length 1) (by omega) (by omega)]
        · rw [if_neg hmt, if_neg hmt, ih g (i + 1) (by omega) (by omega)]
      · rw [if_neg h, if_neg h]

theorem countFrom_step (text term : List Char) (i : Nat) :
    countFrom text term i =
      if i < text.length then
        if matchAt text term i then
          1 + countFrom text term (i + max term.length 1)
        else
          countFrom text term (i + 1)
      else 0 := by
  have hL : countFrom text term i = countFromAux text term (Nat.succ text.length) i := rfl
  rw [hL]
  simp only [countFromAux]
  by_cases h : i < text.length
  · rw [if_pos h, if_pos h]
    have hm : 1 ≤ max term.length 1 := Nat.le_max_right _ _
    by_cases hmt : matchAt text term i = true
    · rw [if_pos hmt, if_pos hmt,
        countFromAux_congr text term text.length (text.length + 1) (i + max term.length 1)
          (by omega) (by omega)]
      rfl
    · rw [if_neg hmt, if_neg hmt,
        countFromAux_congr text term text.length (text.length + 1) (i + 1)
          (by omega) (by omega)]
      rfl
  · rw [if_neg h, if_neg h]

theorem occFromAux_congr (text term : List Char) :
    ∀ f g i, text.length - i < f → text.length - i < g →
      occFromAux text term f i = occFromAux text term g i := by
  intro f
  induction f with
  | zero => intro g i hf _; omega
  | succ f ih =>
    intro g i hf hg
    match g, hg with
    | Nat.succ g, hg =>
      show occFromAux text term (Nat.succ f) i = occFromAux text term (Nat.succ g) i
      simp only [occFromAux]
      by_cases h : i < text.length
      · rw [if_pos h, if_pos h, ih g (i + 1) (by omega) (by omega)]
      · rw [if_neg h, if_neg h]

theorem occFrom_step (text term : List Char) (i : Nat) :
    occFrom text term i =
      if i < text.length then
        (if matchAt text term i then 1 else 0) + occFrom text term (i + 1)
      else 0 := by
  have hL : occFrom text term i = occFromAux text term (Nat.succ text.length) i := rfl
  rw [hL]
  simp only [occFromAux]
  by_cases h : i < text.length
  · rw [if_pos h, if_pos h,
      occFromAux_congr text term text.length (text.length + 1) (i + 1) (by omega) (by omega)]
    rfl
  · rw [if_neg h, if_neg h]

theorem occFrom_stop (text term : List Char) (i : Nat) (h : ¬ i < text.length) :
    occFrom text term i = 0 := by
  rw [occFrom_step, if_neg h]

theorem matchAt_eq_true_iff (text term : List Char) (i : Nat) :
    matchAt text term i = true ↔
      i + term.length ≤ text.length ∧
      (∀ m, m < term.length → text.getD (i + m) ' ' = term.getD m ' ') ∧
      boundary text i = true ∧ boundary text (i + term.length) = true := by
  simp [matchAt, List.all_eq_true, List.mem_range, and_assoc]

theorem okTerm_spec (term : List Char) (h : okTerm term = true) :
    0 < term.length ∧ pyIsWordChar (term.getD 0 ' ') = true ∧
      ∀ k, 0 < k → k < term.length →
        pyIsWordChar (term.getD (k - 1) ' ') = true ∨
          term.getD k ' ' ≠ term.getD 0 ' ' := by
  simp only [okTerm, Bool.and_eq_true, List.all_eq_true, List.mem_range] at h
  obtain ⟨⟨h1, h2⟩, h3⟩ := h
  refine ⟨?_, h2, ?_⟩
  · cases term with
    | nil => simp at h1
    | cons c t => simp
  · intro k hk0 hk
    have hh := h3 k hk
    simp only [Bool.or_eq_true, beq_iff_eq, bne_iff_ne] at hh
    rcases hh with (hh | hh) | hh
    · omega
    · exact Or.inl hh
    · exact Or.inr hh

/-- Two whole-word occurrences of a lexicon-shaped term never overlap:
a second match inside a first would need a non-word character, followed by
the term's first character, inside the term — which `okTerm` excludes. -/
theorem no_overlap (text term : List Char) (hok : okTerm term = true)
    (i j : Nat) (hij : i < j) (hlt : j < i + term.length)
    (hi : matchAt text term i = true) : matchAt text term j = false := by
  obtain ⟨hlen, hw0, hnb⟩ := okTerm_spec term hok
  by_contra hj
  rw [Bool.not_eq_false] at hj
  obtain ⟨hile, hieq, -, -⟩ := (matchAt_eq_true_iff text term i).mp hi
  obtain ⟨hjle, hjeq, hjb, -⟩ := (matchAt_eq_true_iff text term j).mp hj
  have hTj : text.getD j ' ' = term.getD (j - i) ' ' := by
    have hh := hieq (j - i) (by omega)
    rwa [show i + (j - i) = j from by omega] at hh
  have hTj0 : text.getD j ' ' = term.getD 0 ' ' := by
    have hh := hjeq 0 hlen
    rwa [Nat.add_zero] at hh
  have hwj : wordAt text j = true := by
    unfold wordAt
    rw [hTj0, hw0]
  have hlw : leftWordAt text j = false := by
    unfold boundary at hjb
    rw [hwj] at hjb
    cases hcase : leftWordAt text j
    · rfl
    · rw [hcase] at hjb
      simp at hjb
  obtain ⟨jm, rfl⟩ : ∃ jm, j = jm + 1 := ⟨j - 1, by omega⟩
  have hlw' : wordAt text jm = false := hlw
  have hTprev : text.getD jm ' ' = term.getD ((jm + 1 - i) - 1) ' ' := by
    have hh := hieq ((jm + 1 - i) - 1) (by omega)
    rwa [show i + ((jm + 1 - i) - 1) = jm from by omega] at hh
  have hnw : pyIsWordChar (term.getD ((jm + 1 - i) - 1) ' ') = false := by
    unfold wordAt at hlw'
    rwa [hTprev] at hlw'
  rcases hnb (jm + 1 - i) (by omega) (by omega) with hcase | hcase
  · rw [hnw] at hcase
    exact Bool.false_ne_true hcase
  · exact hcase (by rw [← hTj, hTj0])

theorem occFrom_skip (text term : List Char) :
    ∀ k a, (∀ m, m < k → matchAt text term (a + m) = false) →
      occFrom text term a = occFrom text term (a + k) := by
  intro k
  induction k with
  | zero => intro a _; rfl
  | succ k ih =>
    intro a h
    have h0 : matchAt text term a = false := by
      have hh := h 0 (Nat.succ_pos k)
      rwa [Nat.add_zero] at hh
    rw [occFrom_step]
    by_cases ha : a < text.length
    · rw [if_pos ha, h0]
      have hrest := ih (a + 1) (fun m hm => by
        have hh := h (m + 1) (by omega)
        rwa [show a + (m + 1) = a + 1 + m from by omega] at hh)
      rw [show a + 1 + k = a + (k + 1) from by omega] at hrest
      simp [hrest]
    · rw [if_neg ha, occFrom_stop text term (a + (k + 1)) (by omega)]

/-- The non-overlapping left-to-right scan of `re.findall` counts every
whole-word occurrence of an `okTerm`-shaped term: skipping past a match
skips no other match. -/
theorem countFrom_eq_occFrom (text term : List Char) (hok : okTerm term = true)
    (i : Nat) : countFrom text term i = occFrom text term i := by
  rw [countFrom_step, occFrom_step]
  by_cases h : i < text.length
  · rw [if_pos h, if_pos h]
    by_cases hmt : matchAt text term i = true
    · rw [if_pos hmt, if_pos hmt]
      have hlen : 0 < term.length := (okTerm_spec term hok).1
      have hmax : max term.length 1 = term.length := by omega
      rw [hmax, countFrom_eq_occFrom text term hok (i + term.length)]
      have hskip : occFrom text term (i + 1) =
          occFrom text term ((i + 1) + (term.length - 1)) :=
        occFrom_skip text term (term.length - 1) (i + 1)
          (fun m hm => no_overlap text term hok i (i + 1 + m) (by omega) (by omega) hmt)
      rw [show (i + 1) + (term.length - 1) = i + term.length from by omega] at hskip
      rw [hskip]
    · have hmf : matchAt text term i = false := by
        rwa [Bool.not_eq_true] at hmt
      rw [if_neg hmt, countFrom_eq_occFrom text term hok (i + 1), hmf]
      simp
  · rw [if_neg h, if_neg h]
termination_by text.length - i
decreasing_by
  · omega
  · omega

theorem occFrom_countP (text term : List Char) (i : Nat) :
    occFrom text term i =
      (List.range' i (text.length - i)).countP (fun j => matchAt text term j) := by
  rw [occFrom_step]
  by_cases h : i < text.length
  · rw [if_pos h]
    have hn : text.length - i = (text.length - (i + 1)) + 1 := by omega
    rw [hn, List.range'_succ, List.countP_cons, occFrom_countP text term (i + 1)]
    simp [Nat.add_comm]
  · rw [if_neg h]
    have hn : text.length - i = 0 := by omega
    simp [hn]
termination_by text.length - i

theorem countFrom_eq_occurrenceCount (text term : List Char)
    (hok : okTerm term = true) :
    countFrom text term 0 = occurrenceCount text term := by
  rw [countFrom_eq_occFrom text term hok 0, occFrom_countP]
  simp [occurrenceCount, List.range_eq_range']

theorem okTerm_quality : ∀ t ∈ quality_terms, okTerm (lowerStr t.data) = true := by
  decide

theorem okTerm_process : ∀ t ∈ process_terms, okTerm (lowerStr t.data) = true := by
  decide

theorem okTerm_tools : ∀ t ∈ tools_terms, okTerm (lowerStr t.data) = true := by
  decide

/-! ## Lemmas about the catalog operations -/

theorem hasKey_eq_isSome (m : Catalog) (id : String) :
    hasKey m id = (lookup m id).isSome := by
  induction m with
  | nil => rfl
  | cons p t ih =>
    cases hb : (p.1 == id)
    · simpa [hasKey, lookup, List.any_cons, List.find?, hb] using ih
    · simp [hasKey, lookup, List.any_cons, List.find?, hb]

theorem lookup_eq_none_of_absent (m : Catalog) (id : String)
    (h : hasKey m id = false) : lookup m id = none := by
  have hh := hasKey_eq_isSome m id
  rw [h] at hh
  exact Option.not_isSome_iff_eq_none.mp (by rw [← hh]; exact Bool.false_ne_true)

theorem hasKey_iff_mem (m : Catalog) (id : String) :
    hasKey m id = true ↔ id ∈ m.map Prod.fst := by
  simp [hasKey, List.any_eq_true, List.mem_map]

/-- `lookup` commutes with a per-entry rewrite that keeps every key and
touches only the entry at `id`: at any other key nothing changes. -/
theorem lookup_map_ne (m : Catalog)
    (f : String × QualityCapability → String × QualityCapability) (id : String)
    (hf : ∀ p, p.1 ≠ id → f p = p) (hf1 : ∀ p, (f p).1 = p.1)
    (k : String) (hk : k ≠ id) :
    lookup (m.map f) k = lookup m k := by
  induction m with
  | nil => rfl
  | cons p t ih =>
    by_cases hb : p.1 = id
    · have h1 : ((f p).1 == k) = false := by
        rw [hf1, hb]
        exact beq_eq_false_iff_ne.mpr (fun hc => hk hc.symm)
      have h2 : (p.1 == k) = false := by
        rw [hb]
        exact beq_eq_false_iff_ne.mpr (fun hc => hk hc.symm)
      simpa [lookup, List.find?, h1, h2] using ih
    · rw [List.map_cons, hf p hb]
      cases hpk : (p.1 == k)
      · simpa [lookup, List.find?, hpk] using ih
      · simp [lookup, List.find?, hpk]

/-- `lookup` at `id` after the present-key branch of `dictInsert`. -/
theorem lookup_map_replace (m : Catalog) (id : String) (v : QualityCapability)
    (h : hasKey m id = true) :
    lookup (m.map (fun p => if p.1 == id then (p.1, v) else p)) id = some v := by
  induction m with
  | nil => simp [hasKey] at h
  | cons p t ih =>
    cases hb : (p.1 == id)
    · have ht : hasKey t id = true := by
        simpa [hasKey, List.any_cons, hb] using h
      simpa [lookup, List.find?, hb] using ih ht
    · simp [lookup, List.find?, hb]

/-- `lookup` at `id` after the update `edit_capability` performs. -/
theorem lookup_map_edit (m : Catalog) (id : String) (name category : Option String)
    (sc : Option (List (String × String))) (cap : QualityCapability)
    (h : lookup m id = some cap) :
    lookup (m.map (fun p =>
        if p.1 == id then (p.1, editFields p.2 name category sc) else p)) id =
      some (editFields cap name category sc) := by
  induction m with
  | nil => simp [lookup, List.find?] at h
  | cons p t ih =>
    cases hb : (p.1 == id)
    · have ht : lookup t id = some cap := by
        simpa [lookup, List.find?, hb] using h
      simpa [lookup, List.find?, hb] using ih ht
    · have hc : p.2 = cap := by
        simpa [lookup, List.find?, hb] using h
      simp [lookup, List.find?, hb, hc]

theorem lookup_append_absent (m : Catalog) (id : String) (v : QualityCapability)
    (h : hasKey m id = false) :
    lookup (m ++ [(id, v)]) id = some v := by
  induction m with
  | nil => simp [lookup, List.find?]
  | cons p t ih =>
    simp only [hasKey, List.any_cons, Bool.or_eq_false_iff] at h
    have hb : (p.1 == id) = false := h.1
    have ht : hasKey t id = false := h.2
    simpa [lookup, List.find?, hb] using ih ht

theorem lookup_dictInsert_self (m : Catalog) (id : String) (v : QualityCapability) :
    lookup (dictInsert m id v) id = some v := by
  unfold dictInsert
  by_cases h : hasKey m id = true
  · rw [if_pos h]
    exact lookup_map_replace m id v h
  · rw [if_neg h]
    exact lookup_append_absent m id v (by simpa using h)

theorem dictInsert_keys (m : Catalog) (id : String) (v : QualityCapability) :
    (dictInsert m id v).map Prod.fst =
      if hasKey m id = true then m.map Prod.fst else m.map Prod.fst ++ [id] := by
  unfold dictInsert
  by_cases h : hasKey m id = true
  · rw [if_pos h, if_pos h, List.map_map]
    refine List.map_congr_left (fun p _ => ?_)
    show (if p.1 == id then (p.1, v) else p).1 = p.1
    split
    · rfl
    · rfl
  · rw [if_neg h, if_neg h]
    simp

theorem lookup_filter_out (m : Catalog) (id : String) :
    lookup (m.filter (fun p => !(p.1 == id))) id = none := by
  unfold lookup
  rw [Option.map_eq_none', List.find?_eq_none]
  intro x hx
  have hfx := (List.mem_filter.mp hx).2
  simpa using hfx

theorem lookup_filter_ne (m : Catalog) (id k : String) (hk : k ≠ id) :
    lookup (m.filter (fun p => !(p.1 == id))) k = lookup m k := by
  induction m with
  | nil => rfl
  | cons p t ih =>
    by_cases hb : p.1 = id
    · have h1 : (p.1 == id) = true := beq_iff_eq.mpr hb
      have h2 : (p.1 == k) = false := by
        rw [hb]
        exact beq_eq_false_iff_ne.mpr (fun hc => hk hc.symm)
      simpa [lookup, List.filter_cons, List.find?, h1, h2] using ih
    · have h1 : (p.1 == id) = false := beq_eq_false_iff_ne.mpr hb
      cases hpk : (p.1 == k)
      · simpa [lookup, List.filter_cons, List.find?, h1, hpk] using ih
      · simp [lookup, List.filter_cons, List.find?, h1, hpk]

/-- Both bounds of a score `max 1 (min x 10)`. -/
theorem score_bounds (x : Nat) : 1 ≤ max 1 (min x 10) ∧ max 1 (min x 10) ≤ 10 :=
  ⟨le_max_left 1 _, max_le (by norm_num) (min_le_right x 10)⟩

/-! ## Claims -/

/-- C1: for every `results` input, `_calculate_suggested_scores` returns
exactly `QMS = clamp(1,10, certs*2 + quality//5)`,
`ProcessControl = clamp(1,10, process//3 + pages//2)` and
`SPC = clamp(1,10, tools//2 + certs)`; in particular one certification,
five quality mentions and zero other signals yield QMS=3,
ProcessControl=1, SPC=1. -/
theorem C1_score_formulas (r : ScrapeResults) :
    calculate_suggested_scores r =
      [("QMS", clamp 1 10 (r.certifications_found.length * 2 + r.quality_mentions / 5)),
       ("ProcessControl", clamp 1 10 (r.process_mentions / 3 + r.quality_pages.length / 2)),
       ("SPC", clamp 1 10 (r.tools_mentions / 2 + r.certifications_found.length))] ∧
    calculate_suggested_scores
        { certifications_found := ["ISO 9001"], quality_mentions := 5,
          process_mentions := 0, tools_mentions := 0, quality_pages := [],
          suggested_scores := [], error := none } =
      [("QMS", 3), ("ProcessControl", 1), ("SPC", 1)] := by
  constructor
  · simp [calculate_suggested_scores, clamp, Nat.min_comm]
  · decide

/-- C2: every derived score lies in `[1,10]` no matter how large the raw
counts are, the output always has an entry for each of QMS,
ProcessControl and SPC, and empty input text yields all-zero counts, no
certifications, and scores 1/1/1. -/
theorem C2_clamp_law (r : ScrapeResults) :
    ((calculate_suggested_scores r).map Prod.fst = ["QMS", "ProcessControl", "SPC"] ∧
      ∀ p ∈ calculate_suggested_scores r, 1 ≤ p.2 ∧ p.2 ≤ 10) ∧
    ((scrapeBody "" [] id).certifications_found = [] ∧
      (scrapeBody "" [] id).quality_mentions = 0 ∧
      (scrapeBody "" [] id).process_mentions = 0 ∧
      (scrapeBody "" [] id).tools_mentions = 0 ∧
      (scrapeBody "" [] id).suggested_scores =
        [("QMS", 1), ("ProcessControl", 1), ("SPC", 1)]) := by
  refine ⟨⟨by simp [calculate_suggested_scores], ?_⟩, by decide⟩
  intro p hp
  simp only [calculate_suggested_scores, List.mem_cons, List.not_mem_nil, or_false] at hp
  rcases hp with rfl | rfl | rfl
  · exact score_bounds _
  · exact score_bounds _
  · exact score_bounds _

theorem C2_clamp_law_witness :
    1 ≤ (("QMS", (10 : Nat))).2 ∧ (("QMS", (10 : Nat))).2 ≤ 10 :=
  (C2_clamp_law
      { certifications_found := [], quality_mentions := 10000,
        process_mentions := 0, tools_mentions := 0, quality_pages := [],
        suggested_scores := [], error := none }).1.2 ("QMS", 10) (by decide)

/-- C3 fails on the code: certification detection is a plain substring
test (`cert.lower() in text_content`), not whole-word matching.  In
`"The miso 9001 soup"` the term "ISO 9001" has no whole-word occurrence
(the `i` sits inside `miso`), yet `scrape_website` reports it found. -/
theorem C3_counterexample :
    "ISO 9001" ∈ (scrapeBody "The miso 9001 soup" [] id).certifications_found ∧
    occurrenceCount (lowerStr "The miso 9001 soup".data)
      (lowerStr "ISO 9001".data) = 0 := by
  decide

/-- C3 (amended): a certification term is reported iff its lower-cased
form occurs as a substring (not necessarily whole-word) of the
lower-cased text; the result is deduplicated and keeps the lexicon's
canonical casing (its elements are lexicon entries). -/
theorem C3_amended_substring (raw : String) (hrefs : List String)
    (join : String → String) :
    (∀ cert, cert ∈ (scrapeBody raw hrefs join).certifications_found ↔
      (cert ∈ certifications ∧ subStr (lowerStr cert.data) (lowerStr raw.data) = true)) ∧
    (scrapeBody raw hrefs join).certifications_found.Nodup := by
  have hc : (scrapeBody raw hrefs join).certifications_found =
      certifications.filter (fun cert => subStr (lowerStr cert.data) (lowerStr raw.data)) :=
    rfl
  constructor
  · intro cert
    rw [hc, List.mem_filter]
  · rw [hc]
    exact List.Nodup.filter _ (by decide)

theorem C3_amended_substring_witness :
    "ISO 9001" ∈ certifications ∧
      subStr (lowerStr "ISO 9001".data)
        (lowerStr "the iso 9001 standard applies".data) = true :=
  ((C3_amended_substring "the iso 9001 standard applies" [] id).1 "ISO 9001").mp
    (by decide)

/-- C4 fails on the code: `edit_capability` guards every field update by
Python truthiness (`if scoring_criteria:`), so passing an empty rubric
mapping is exactly the same as omitting the argument — here both leave
the seeded catalog untouched. -/
theorem C4_counterexample :
    edit_capability initCatalogStreamlit "QMS" none none (some []) =
      edit_capability initCatalogStreamlit "QMS" none none none ∧
    edit_capability initCatalogStreamlit "QMS" none none (some []) =
      initCatalogStreamlit := by
  decide

/-- C4 (amended): `edit_capability` on an absent id is a no-op; on a
present id it rewrites only the entry at that id, applying exactly the
supplied-and-truthy fields (`editFields`); and an empty rubric argument
behaves identically to an omitted one. -/
theorem C4_edit_truthiness (m : Catalog) (id : String)
    (name category : Option String) (sc : Option (List (String × String))) :
    (hasKey m id = false → edit_capability m id name category sc = m) ∧
    (∀ k, k ≠ id → lookup (edit_capability m id name category sc) k = lookup m k) ∧
    (∀ cap, lookup m id = some cap →
      lookup (edit_capability m id name category sc) id =
        some (editFields cap name category sc)) ∧
    edit_capability m id name category (some []) =
      edit_capability m id name category none := by
  refine ⟨?_, ?_, ?_, rfl⟩
  · intro h
    unfold edit_capability
    rw [h]
    simp
  · intro k hk
    unfold edit_capability
    by_cases h : hasKey m id = true
    · rw [if_pos h]
      exact lookup_map_ne m _ id
        (fun p hp => by simp [beq_eq_false_iff_ne.mpr hp])
        (fun p => by
          show (if p.1 == id then (p.1, editFields p.2 name category sc) else p).1 = p.1
          split
          · rfl
          · rfl)
        k hk
    · rw [if_neg h]
  · intro cap hcap
    unfold edit_capability
    have h : hasKey m id = true := by
      rw [hasKey_eq_isSome, hcap]
      rfl
    rw [if_pos h]
    exact lookup_map_edit m id name category sc cap hcap

theorem C4_edit_truthiness_witness :
    lookup (edit_capability initCatalogStreamlit "QMS" (some "New Name") none none)
        "QMS" =
      some (editFields
        ⟨"Quality Management System", "System",
          [("1", "No formal QMS"), ("3", "Basic quality procedures"),
           ("5", "ISO 9001 implementation in progress"), ("7", "ISO 9001 certified"),
           ("10", "Advanced integrated QMS with multiple certifications")]⟩
        (some "New Name") none none) :=
  (C4_edit_truthiness initCatalogStreamlit "QMS" (some "New Name") none none).2.2.1
    _ (by decide)

/-- C5: each non-certification category count equals the sum, over the
category's terms, of the number of whole-word/whole-phrase occurrences of
the term (case-insensitively); terms are counted independently with no
deduplication, a term never matches inside a longer word ("QMSx" yields
0), and a phrase matches only with its internal whitespace exactly as in
the lexicon (a doubled space yields 0). -/
theorem C5_mention_counts (raw : String) (hrefs : List String)
    (join : String → String) :
    ((scrapeBody raw hrefs join).quality_mentions =
        (quality_terms.map (fun t =>
          occurrenceCount (lowerStr raw.data) (lowerStr t.data))).sum ∧
      (scrapeBody raw hrefs join).process_mentions =
        (process_terms.map (fun t =>
          occurrenceCount (lowerStr raw.data) (lowerStr t.data))).sum ∧
      (scrapeBody raw hrefs join).tools_mentions =
        (tools_terms.map (fun t =>
          occurrenceCount (lowerStr raw.data) (lowerStr t.data))).sum) ∧
    (scrapeBody "no QMSx here" [] id).quality_mentions = 0 ∧
    (scrapeBody "quality  management only" [] id).quality_mentions = 0 ∧
    (scrapeBody "quality management twice: quality management" [] id).quality_mentions
      = 2 := by
  refine ⟨⟨?_, ?_, ?_⟩, by decide, by decide, by decide⟩
  · show categoryMentions quality_terms (lowerStr raw.data) = _
    unfold categoryMentions
    congr 1
    exact List.map_congr_left (fun t ht =>
      countFrom_eq_occurrenceCount _ _ (okTerm_quality t ht))
  · show categoryMentions process_terms (lowerStr raw.data) = _
    unfold categoryMentions
    congr 1
    exact List.map_congr_left (fun t ht =>
      countFrom_eq_occurrenceCount _ _ (okTerm_process t ht))
  · show categoryMentions tools_terms (lowerStr raw.data) = _
    unfold categoryMentions
    congr 1
    exact List.map_congr_left (fun t ht =>
      countFrom_eq_occurrenceCount _ _ (okTerm_tools t ht))

/-- C6: when extraction fails, `scrape_website` does not throw but
returns the designated no-signal dict — empty certifications, all counts
zero, empty pages, empty suggested scores (the scoring pipeline is never
applied) — carrying the error message. -/
theorem C6_error_path (msg : String) (join : String → String) :
    scrape_website (Except.error msg) join =
      { certifications_found := [], quality_mentions := 0, process_mentions := 0,
        tools_mentions := 0, quality_pages := [], suggested_scores := [],
        error := some msg } :=
  rfl

/-- C7: the analysis/derivation pipeline is a pure function of its
inputs: two runs on the same text (and links) give identical results and
identical suggested scores. -/
theorem C7_pure (raw : String) (hrefs : List String) (join : String → String) :
    scrapeBody raw hrefs join = scrapeBody raw hrefs join ∧
    (scrapeBody raw hrefs join).suggested_scores =
      (scrapeBody raw hrefs join).suggested_scores :=
  ⟨rfl, rfl⟩

/-- C8: `add_capability` is an upsert with last-write-wins: after two
adds under the same id the catalog holds exactly one entry under that id,
with the second write's fields, and catalog ids stay unique; no error is
ever raised (the operation is total). -/
theorem C8_add_upsert (m : Catalog) (id n1 c1 : String)
    (r1 : List (String × String)) (n2 c2 : String) (r2 : List (String × String))
    (h : (m.map Prod.fst).Nodup) :
    ((add_capability (add_capability m id n1 c1 r1) id n2 c2 r2).map Prod.fst).count id
        = 1 ∧
    lookup (add_capability (add_capability m id n1 c1 r1) id n2 c2 r2) id =
      some ⟨n2, c2, r2⟩ ∧
    ((add_capability (add_capability m id n1 c1 r1) id n2 c2 r2).map Prod.fst).Nodup := by
  have h1 : hasKey (add_capability m id n1 c1 r1) id = true := by
    rw [hasKey_eq_isSome]
    unfold add_capability
    rw [lookup_dictInsert_self]
    rfl
  have hkeys2 : (add_capability (add_capability m id n1 c1 r1) id n2 c2 r2).map Prod.fst
      = (add_capability m id n1 c1 r1).map Prod.fst := by
    unfold add_capability
    rw [dictInsert_keys, if_pos (by unfold add_capability at h1; exact h1)]
  have hnodup : ((add_capability m id n1 c1 r1).map Prod.fst).Nodup := by
    unfold add_capability
    rw [dictInsert_keys]
    by_cases hK : hasKey m id = true
    · rwa [if_pos hK]
    · rw [if_neg hK]
      have hnm : id ∉ m.map Prod.fst := fun hmem => hK ((hasKey_iff_mem m id).mpr hmem)
      rw [List.nodup_append]
      refine ⟨h, List.nodup_singleton id, ?_⟩
      intro a ha hb
      rw [List.mem_singleton] at hb
      exact hnm (hb ▸ ha)
  have hmem : id ∈ (add_capability m id n1 c1 r1).map Prod.fst :=
    (hasKey_iff_mem _ id).mp h1
  refine ⟨?_, ?_, ?_⟩
  · rw [hkeys2]
    exact List.count_eq_one_of_mem hnodup hmem
  · unfold add_capability
    exact lookup_dictInsert_self _ id ⟨n2, c2, r2⟩
  · rw [hkeys2]
    exact hnodup

theorem C8_add_upsert_witness :
    lookup (add_capability (add_capability initCatalogStreamlit "X" "n1" "c1" [])
        "X" "n2" "c2" [("1", "d")]) "X" = some ⟨"n2", "c2", [("1", "d")]⟩ :=
  (C8_add_upsert initCatalogStreamlit "X" "n1" "c1" [] "n2" "c2" [("1", "d")]
    (by decide)).2.1

/-- C9: `remove_capability` deletes the entry when the id is present and
is a no-op — the catalog exactly unchanged, no error — when it is absent;
any other key reads back unchanged. -/
theorem C9_remove (m : Catalog) (id : String) :
    (lookup m id = none → remove_capability m id = m) ∧
    lookup (remove_capability m id) id = none ∧
    (∀ k, k ≠ id → lookup (remove_capability m id) k = lookup m k) := by
  refine ⟨?_, ?_, ?_⟩
  · intro h
    unfold remove_capability
    have hk : hasKey m id = false := by
      rw [hasKey_eq_isSome, h]
      rfl
    rw [hk]
    simp
  · unfold remove_capability
    by_cases h : hasKey m id = true
    · rw [if_pos h]
      exact lookup_filter_out m id
    · rw [if_neg h]
      exact lookup_eq_none_of_absent m id (by simpa using h)
  · intro k hk
    unfold remove_capability
    by_cases h : hasKey m id = true
    · rw [if_pos h]
      exact lookup_filter_ne m id k hk
    · rw [if_neg h]

theorem C9_remove_witness :
    remove_capability initCatalogStreamlit "Nonexistent" = initCatalogStreamlit :=
  (C9_remove initCatalogStreamlit "Nonexistent").1 (by decide)

/-- C10: right after construction, each seeded catalog (both source
files) holds exactly three capabilities with distinct ids, every one
belongs to exactly one of the catalog's categories, and every rubric is
keyed by exactly the five level strings "1","3","5","7","10". -/
theorem C10_seed_invariants :
    (initCatalogStreamlit.length = 3 ∧
      (initCatalogStreamlit.map Prod.fst).Nodup ∧
      ∀ p ∈ initCatalogStreamlit,
        p.2.scoring_criteria.map Prod.fst = ["1", "3", "5", "7", "10"] ∧
        (get_all_categories initCatalogStreamlit).countP
          (fun c => p.2.category == c) = 1) ∧
    (initCatalogQualityManager.length = 3 ∧
      (initCatalogQualityManager.map Prod.fst).Nodup ∧
      ∀ p ∈ initCatalogQualityManager,
        p.2.scoring_criteria.map Prod.fst = ["1", "3", "5", "7", "10"] ∧
        (get_all_categories initCatalogQualityManager).countP
          (fun c => p.2.category == c) = 1) := by
  decide

end App
